import Mathlib

/-!
Verification of computeSales.py: a shallow embedding of the catalogue
builder, the sales aggregator and the report formatter, with machine
real numbers (Python floats) embedded exactly as rationals. Decoded
JSON data is embedded as the inductive type PyVal; dictionaries whose
values are numbers are association lists whose key lookup follows
Python hash or equality semantics (booleans, integers and floats
compare by numeric value, strings by content, containers are
unhashable and can never be dictionary keys). Every statement of the
source that can raise KeyError, ValueError or TypeError is embedded as
an Option valued function, and the try or except blocks of the source
become the corresponding skip branches.
-/

set_option maxRecDepth 8192

attribute [local semireducible] Rat.add Rat.mul Rat.inv Rat.sub Rat.ofScientific

namespace ComputeSales

/-- A decoded JSON value as Python sees it: None, bool, int, float
(embedded exactly as a rational), str, list, or an object, whose keys
are strings after JSON decoding. -/
inductive PyVal where
  | none : PyVal
  | bool : Bool → PyVal
  | int : Int → PyVal
  | float : ℚ → PyVal
  | str : String → PyVal
  | list : List PyVal → PyVal
  | dict : List (String × PyVal) → PyVal

/-- The hash class of a hashable Python value: numbers (bool, int,
float) hash and compare by numeric value, strings by content, None by
itself. -/
inductive PyKey where
  | num : ℚ → PyKey
  | text : String → PyKey
  | nil : PyKey
deriving DecidableEq

/-- The hash class of a value, or Option.none when the value is
unhashable (lists and dicts), in which case any attempt to use it as a
dictionary key raises TypeError. -/
def keyOf? : PyVal → Option PyKey
  | .none => some PyKey.nil
  | .bool b => some (PyKey.num (if b then 1 else 0))
  | .int n => some (PyKey.num (n : ℚ))
  | .float q => some (PyKey.num q)
  | .str s => some (PyKey.text s)
  | .list _ => Option.none
  | .dict _ => Option.none

/-- Whether a value may be used as a dictionary key. -/
def hashable (v : PyVal) : Bool := (keyOf? v).isSome

/-- Python key equality as used by dictionaries: both values hashable
and of equal hash class. -/
def keyMatch (a b : PyVal) : Bool :=
  (keyOf? a).isSome && decide (keyOf? a = keyOf? b)

/-- A Python dictionary whose values are floats, as an association
list in insertion order. The catalogue and the per sale totals both
have this shape. -/
abbrev Dict := List (PyVal × ℚ)

/-- Dictionary lookup: the value of the first entry whose key matches,
if any. -/
def dGet? : Dict → PyVal → Option ℚ
  | [], _ => Option.none
  | e :: rest, k => if keyMatch e.1 k then some e.2 else dGet? rest k

/-- Dictionary membership test. -/
def dMem (d : Dict) (k : PyVal) : Bool := (dGet? d k).isSome

/-- Dictionary update d[k] = v: replace the value of the first entry
whose key matches (Python keeps the originally inserted key object),
else append a new entry. -/
def dSet : Dict → PyVal → ℚ → Dict
  | [], k, v => [(k, v)]
  | e :: rest, k, v =>
    if keyMatch e.1 k then (e.1, v) :: rest else e :: dSet rest k v

/-- The sum of all values of a dictionary. -/
def sumVals (d : Dict) : ℚ := (d.map Prod.snd).sum

/-- Numeric value of a Python number (bool, int or float), else
Option.none. -/
def toRat? : PyVal → Option ℚ
  | .bool b => some (if b then 1 else 0)
  | .int n => some (n : ℚ)
  | .float q => some q
  | _ => Option.none

/-- The value of a decimal digit character. -/
def digitVal (c : Char) : Nat := c.toNat - 48

/-- The natural number denoted by a list of decimal digit characters. -/
def digitsToNat (cs : List Char) : Nat :=
  cs.foldl (fun a c => a * 10 + digitVal c) 0

/-- The int constructor of Python applied to a string: an optional
sign followed by decimal digits, anything else raises ValueError.
Whitespace trimming and underscore separators of Python are not
modelled; no claim depends on them. -/
def parseIntLit? (s : String) : Option Int :=
  let cs := s.toList
  let p : Int × List Char :=
    match cs with
    | '-' :: r => (-1, r)
    | '+' :: r => (1, r)
    | r => (1, r)
  if p.2.isEmpty then Option.none
  else if p.2.all Char.isDigit then some (p.1 * (digitsToNat p.2 : Int))
  else Option.none

/-- Apply an optional decimal exponent, the part after the letter e of
a float literal. -/
def expNum? (base : ℚ) (cs : List Char) : Option ℚ :=
  let p : Bool × List Char :=
    match cs with
    | '-' :: r => (true, r)
    | '+' :: r => (false, r)
    | r => (false, r)
  if p.2.isEmpty then Option.none
  else if p.2.all Char.isDigit then
    some (if p.1 then base / 10 ^ digitsToNat p.2 else base * 10 ^ digitsToNat p.2)
  else Option.none

/-- Parse the suffix of a float literal after the mantissa: empty, or
an exponent marker followed by an exponent. -/
def expPart? (base : ℚ) (cs : List Char) : Option ℚ :=
  match cs with
  | [] => some base
  | 'e' :: r => expNum? base r
  | 'E' :: r => expNum? base r
  | _ => Option.none

/-- The float constructor of Python applied to a string: an optional
sign, a mantissa of digits with an optional decimal point, and an
optional exponent; anything else raises ValueError. Whitespace,
underscores, inf and nan are not modelled; no claim depends on them. -/
def parseFloatLit? (s : String) : Option ℚ :=
  let cs := s.toList
  let p : ℚ × List Char :=
    match cs with
    | '-' :: r => (-1, r)
    | '+' :: r => (1, r)
    | r => (1, r)
  let intDigits := p.2.takeWhile Char.isDigit
  let rest2 := p.2.dropWhile Char.isDigit
  match rest2 with
  | '.' :: rest3 =>
    let fracDigits := rest3.takeWhile Char.isDigit
    let rest4 := rest3.dropWhile Char.isDigit
    if intDigits.isEmpty && fracDigits.isEmpty then Option.none
    else
      (expPart?
        ((digitsToNat intDigits : ℚ) +
          (digitsToNat fracDigits : ℚ) / 10 ^ fracDigits.length) rest4).map
        (fun v => p.1 * v)
  | _ =>
    if intDigits.isEmpty then Option.none
    else (expPart? (digitsToNat intDigits : ℚ) rest2).map (fun v => p.1 * v)

/-- The float constructor of Python on a decoded value: numbers pass
through by value, strings are parsed as float literals, everything
else raises TypeError. -/
def pyFloat? : PyVal → Option ℚ
  | .bool b => some (if b then 1 else 0)
  | .int n => some (n : ℚ)
  | .float q => some q
  | .str s => parseFloatLit? s
  | _ => Option.none

/-- Truncation of a rational toward zero, the behaviour of the int
constructor of Python on a float. -/
def ratTrunc (q : ℚ) : Int := Int.tdiv q.num (q.den : Int)

/-- The int constructor of Python on a decoded value: bools and ints
by value, floats truncate toward zero, strings must be integer
literals, everything else raises TypeError. -/
def pyInt? : PyVal → Option Int
  | .bool b => some (if b then 1 else 0)
  | .int n => some n
  | .float q => some (ratTrunc q)
  | .str s => parseIntLit? s
  | _ => Option.none

/-- Subscripting a decoded value with a string key, record[key]:
defined exactly when the value is an object with that key; otherwise
Python raises KeyError or TypeError. -/
def subscript : PyVal → String → Option PyVal
  | .dict kvs, key => (kvs.find? (fun e => e.1 == key)).map Prod.snd
  | _, _ => Option.none

/-- The try block of build_price_catalogue on one product record:
title = product[title], price = float(product[price]). Option.none
when either step raises. -/
def extractProduct? (product : PyVal) : Option (PyVal × ℚ) := do
  let title ← subscript product "title"
  let price ← pyFloat? (← subscript product "price")
  pure (title, price)

/-- One product record reduced to the entry it contributes to the
catalogue: its extracted title and price, provided the title is
hashable (the assignment catalogue[title] = price raises TypeError on
an unhashable title, which the except clause also swallows). -/
def validEntry? (product : PyVal) : Option (PyVal × ℚ) :=
  match extractProduct? product with
  | some e => if hashable e.1 then some e else Option.none
  | Option.none => Option.none

/-- The entries contributed by a product list, in order. -/
def validEntries (products : List PyVal) : List (PyVal × ℚ) :=
  products.filterMap validEntry?

/-- The loop body of build_price_catalogue: insert the extracted
entry, or skip the record when extraction or insertion raises. -/
def buildStep (catalogue : Dict) (product : PyVal) : Dict :=
  match validEntry? product with
  | some e => dSet catalogue e.1 e.2
  | Option.none => catalogue

/-- build_price_catalogue of the source: fold the loop body over the
product list starting from the empty dictionary. -/
def build_price_catalogue (products : List PyVal) : Dict :=
  products.foldl buildStep []

/-- The mutable state of compute_sales_total: the catalogue it reads,
the per sale totals and the grand total it accumulates. -/
structure AggState where
  catalogue : Dict
  sale_totals : Dict
  grand_total : ℚ

/-- The try block of the aggregation loop up to its conversions:
sale_id = record[SALE_ID], product_name = record[Product], quantity =
int(record[Quantity]). Option.none when any step raises. -/
def extractSale? (record : PyVal) : Option (PyVal × PyVal × Int) := do
  let sale_id ← subscript record "SALE_ID"
  let product_name ← subscript record "Product"
  let quantity ← pyInt? (← subscript record "Quantity")
  pure (sale_id, product_name, quantity)

/-- The loop body of compute_sales_total on one sale record. The
branches mirror the source: extraction failure skips via the except
clause; an unhashable product name makes the membership test raise,
also skipping; a product absent from the catalogue skips via continue;
an unhashable sale id makes the sale_totals operations raise, skipping
before any accumulation; otherwise cost is accumulated into
sale_totals[sale_id] (initialised to 0 when new) and grand_total. -/
def saleStep (s : AggState) (record : PyVal) : AggState :=
  match extractSale? record with
  | Option.none => s
  | some (sale_id, product_name, quantity) =>
    if hashable product_name = false then s
    else
      match dGet? s.catalogue product_name with
      | Option.none => s
      | some price =>
        if hashable sale_id = false then s
        else
          let cost : ℚ := price * (quantity : ℚ)
          let st0 :=
            if dMem s.sale_totals sale_id then s.sale_totals
            else dSet s.sale_totals sale_id 0
          { catalogue := s.catalogue,
            sale_totals := dSet st0 sale_id ((dGet? st0 sale_id).getD 0 + cost),
            grand_total := s.grand_total + cost }

/-- The aggregation loop of compute_sales_total: fold the loop body
over the sales, starting from empty totals and a zero grand total. -/
def aggRun (sales : List PyVal) (catalogue : Dict) : AggState :=
  sales.foldl saleStep
    { catalogue := catalogue, sale_totals := [], grand_total := 0 }

/-- compute_sales_total of the source: the pair it returns. -/
def compute_sales_total (sales : List PyVal) (catalogue : Dict) : Dict × ℚ :=
  ((aggRun sales catalogue).sale_totals, (aggRun sales catalogue).grand_total)

/-- Whether one sale record passes every check of the loop body and
contributes to the totals. -/
def contributes (catalogue : Dict) (record : PyVal) : Bool :=
  match extractSale? record with
  | some (sale_id, product_name, _) =>
    dMem catalogue product_name && hashable sale_id
  | Option.none => false

theorem keyMatch_iff (a b : PyVal) :
    keyMatch a b = true ↔ ∃ x, keyOf? a = some x ∧ keyOf? b = some x := by
  unfold keyMatch
  cases ha : keyOf? a <;> cases hb : keyOf? b <;> simp
  exact ⟨fun h => h.symm, fun h => h.symm⟩

theorem keyMatch_refl (k : PyVal) (h : hashable k = true) :
    keyMatch k k = true := by
  unfold hashable at h
  rcases Option.isSome_iff_exists.1 h with ⟨x, hx⟩
  exact (keyMatch_iff k k).2 ⟨x, hx, hx⟩

theorem keyMatch_symm (a b : PyVal) : keyMatch a b = keyMatch b a := by
  unfold keyMatch
  cases ha : keyOf? a <;> cases hb : keyOf? b <;> simp
  exact ⟨fun h => h.symm, fun h => h.symm⟩

theorem keyMatch_trans {a b c : PyVal} (h1 : keyMatch a b = true)
    (h2 : keyMatch b c = true) : keyMatch a c = true := by
  rcases (keyMatch_iff a b).1 h1 with ⟨x, hx1, hx2⟩
  rcases (keyMatch_iff b c).1 h2 with ⟨y, hy1, hy2⟩
  rw [hx2] at hy1
  injection hy1 with hxy
  subst hxy
  exact (keyMatch_iff a c).2 ⟨x, hx1, hy2⟩

theorem keyMatch_hashable_right {a b : PyVal} (h : keyMatch a b = true) :
    hashable b = true := by
  rcases (keyMatch_iff a b).1 h with ⟨x, _, hx⟩
  unfold hashable
  rw [hx]
  rfl

theorem keyMatch_congr {a b : PyVal} (h : keyMatch a b = true) (c : PyVal) :
    keyMatch a c = keyMatch b c := by
  rcases (keyMatch_iff a b).1 h with ⟨x, hx1, hx2⟩
  unfold keyMatch
  rw [hx1, hx2]

theorem dGet?_dSet (d : Dict) (k : PyVal) (v : ℚ) (t : PyVal) :
    dGet? (dSet d k v) t = if keyMatch k t then some v else dGet? d t := by
  induction d with
  | nil => rfl
  | cons e rest ih =>
    cases hek : keyMatch e.1 k with
    | true =>
      have hcongr := keyMatch_congr hek t
      rw [show dSet (e :: rest) k v = (e.1, v) :: rest by simp [dSet, hek]]
      show (if keyMatch e.1 t then some v else dGet? rest t) = _
      rw [hcongr]
      cases hkt : keyMatch k t with
      | true => simp
      | false =>
        have het : keyMatch e.1 t = false := by rw [hcongr, hkt]
        simp [dGet?, het]
    | false =>
      rw [show dSet (e :: rest) k v = e :: dSet rest k v by simp [dSet, hek]]
      show (if keyMatch e.1 t then some e.2 else dGet? (dSet rest k v) t) = _
      cases het : keyMatch e.1 t with
      | true =>
        have hkt : keyMatch k t = false := by
          cases hkt : keyMatch k t with
          | false => rfl
          | true =>
            exact absurd (keyMatch_trans het (keyMatch_symm k t ▸ hkt))
              (by simp [hek])
        simp [dGet?, het, hkt]
      | false => simp [dGet?, het, ih]

theorem dGet?_dSet_self (d : Dict) (k : PyVal) (v : ℚ)
    (h : hashable k = true) : dGet? (dSet d k v) k = some v := by
  rw [dGet?_dSet, keyMatch_refl k h]
  rfl

theorem dMem_dSet (d : Dict) (k : PyVal) (v : ℚ) (t : PyVal) :
    dMem (dSet d k v) t = (keyMatch k t || dMem d t) := by
  unfold dMem
  rw [dGet?_dSet]
  cases keyMatch k t <;> simp

theorem dGet?_some_hashable {d : Dict} {t : PyVal} {w : ℚ}
    (h : dGet? d t = some w) : hashable t = true := by
  induction d with
  | nil => exact absurd h (by simp [dGet?])
  | cons e rest ih =>
    by_cases het : keyMatch e.1 t = true
    · exact keyMatch_hashable_right het
    · exact ih (by simpa [dGet?, het] using h)

theorem dMem_hashable {d : Dict} {t : PyVal} (h : dMem d t = true) :
    hashable t = true := by
  rcases Option.isSome_iff_exists.1 h with ⟨w, hw⟩
  exact dGet?_some_hashable hw

theorem dSet_length_new (d : Dict) (k : PyVal) (v : ℚ)
    (h : dGet? d k = Option.none) : (dSet d k v).length = d.length + 1 := by
  induction d with
  | nil => rfl
  | cons e rest ih =>
    have het : keyMatch e.1 k = false := by
      by_contra hc
      simp [dGet?, show keyMatch e.1 k = true by revert hc; cases keyMatch e.1 k <;> simp] at h
    simp only [dSet, het, Bool.false_eq_true, if_false, List.length_cons]
    rw [ih (by simpa [dGet?, het] using h)]

theorem sumVals_cons (e : PyVal × ℚ) (d : Dict) :
    sumVals (e :: d) = e.2 + sumVals d := by
  simp [sumVals]

theorem sumVals_dSet_found (d : Dict) (k : PyVal) (v w : ℚ)
    (h : dGet? d k = some w) : sumVals (dSet d k v) = sumVals d - w + v := by
  induction d with
  | nil => exact absurd h (by simp [dGet?])
  | cons e rest ih =>
    by_cases hek : keyMatch e.1 k = true
    · have hw : e.2 = w := by simpa [dGet?, hek] using h
      rw [show dSet (e :: rest) k v = (e.1, v) :: rest by simp [dSet, hek]]
      rw [sumVals_cons, sumVals_cons, hw]
      ring
    · have h' : dGet? rest k = some w := by simpa [dGet?, hek] using h
      rw [show dSet (e :: rest) k v = e :: dSet rest k v by simp [dSet, hek]]
      rw [sumVals_cons, sumVals_cons, ih h']
      ring

theorem sumVals_dSet_new (d : Dict) (k : PyVal) (v : ℚ)
    (h : dGet? d k = Option.none) : sumVals (dSet d k v) = sumVals d + v := by
  induction d with
  | nil => simp [dSet, sumVals]
  | cons e rest ih =>
    have hek : keyMatch e.1 k = false := by
      by_contra hc
      simp [dGet?, show keyMatch e.1 k = true by revert hc; cases keyMatch e.1 k <;> simp] at h
    have h' : dGet? rest k = Option.none := by simpa [dGet?, hek] using h
    rw [show dSet (e :: rest) k v = e :: dSet rest k v by simp [dSet, hek]]
    rw [sumVals_cons, sumVals_cons, ih h']
    ring

theorem saleStep_skip (s : AggState) (r : PyVal)
    (h : contributes s.catalogue r = false) : saleStep s r = s := by
  unfold contributes at h
  unfold saleStep
  cases hex : extractSale? r with
  | none => rfl
  | some t =>
    obtain ⟨sid, pname, q⟩ := t
    rw [hex] at h
    cases hget : dGet? s.catalogue pname with
    | none => cases hhp : hashable pname <;> simp [hget]
    | some price =>
      have hmem : dMem s.catalogue pname = true := by
        unfold dMem
        rw [hget]
        rfl
      have hsid : hashable sid = false := by
        simp only [hmem, Bool.true_and] at h
        exact h
      have hhp : hashable pname = true := dMem_hashable hmem
      simp [hhp, hget, hsid]

theorem contributes_elim {cat : Dict} {r : PyVal}
    (h : contributes cat r = true) :
    ∃ sid pname q price, extractSale? r = some (sid, pname, q) ∧
      dGet? cat pname = some price ∧ hashable sid = true := by
  unfold contributes at h
  cases hex : extractSale? r with
  | none => rw [hex] at h; simp at h
  | some t =>
    obtain ⟨sid, pname, q⟩ := t
    rw [hex] at h
    simp only [Bool.and_eq_true] at h
    rcases Option.isSome_iff_exists.1 h.1 with ⟨price, hpr⟩
    exact ⟨sid, pname, q, price, rfl, hpr, h.2⟩

theorem saleStep_eq_of_contrib (s : AggState) {r sid pname : PyVal}
    {q : Int} {price : ℚ}
    (hex : extractSale? r = some (sid, pname, q))
    (hpr : dGet? s.catalogue pname = some price)
    (hsid : hashable sid = true) :
    saleStep s r =
      { catalogue := s.catalogue,
        sale_totals :=
          dSet (if dMem s.sale_totals sid then s.sale_totals
                else dSet s.sale_totals sid 0) sid
            ((dGet? (if dMem s.sale_totals sid then s.sale_totals
                else dSet s.sale_totals sid 0) sid).getD 0 + price * (q : ℚ)),
        grand_total := s.grand_total + price * (q : ℚ) } := by
  have hhp : hashable pname = true := dGet?_some_hashable hpr
  simp only [saleStep, hex, hhp, hpr, hsid, Bool.true_eq_false, if_false]

theorem saleStep_catalogue (s : AggState) (r : PyVal) :
    (saleStep s r).catalogue = s.catalogue := by
  by_cases hc : contributes s.catalogue r = true
  · rcases contributes_elim hc with ⟨sid, pname, q, price, hex, hpr, hsid⟩
    rw [saleStep_eq_of_contrib s hex hpr hsid]
  · rw [saleStep_skip s r (by revert hc; cases contributes s.catalogue r <;> simp)]

theorem saleStep_sum (s : AggState) (r : PyVal)
    (h : s.grand_total = sumVals s.sale_totals) :
    (saleStep s r).grand_total = sumVals (saleStep s r).sale_totals := by
  by_cases hc : contributes s.catalogue r = true
  · rcases contributes_elim hc with ⟨sid, pname, q, price, hex, hpr, hsid⟩
    rw [saleStep_eq_of_contrib s hex hpr hsid]
    cases hmem : dMem s.sale_totals sid with
    | true =>
      rcases Option.isSome_iff_exists.1 hmem with ⟨w, hw⟩
      simp only [hmem, if_true, hw, Option.getD_some]
      rw [sumVals_dSet_found _ _ _ _ hw, h]
      ring
    | false =>
      have hnone : dGet? s.sale_totals sid = Option.none := by
        unfold dMem at hmem
        exact Option.not_isSome_iff_eq_none.mp (by simp [hmem])
      simp only [hmem, Bool.false_eq_true, if_false]
      rw [dGet?_dSet_self _ _ _ hsid]
      simp only [Option.getD_some]
      rw [sumVals_dSet_found _ _ _ _ (dGet?_dSet_self _ _ _ hsid),
        sumVals_dSet_new _ _ _ hnone, h]
      ring
  · rw [saleStep_skip s r (by revert hc; cases contributes s.catalogue r <;> simp)]
    exact h

theorem foldl_saleStep_catalogue (sales : List PyVal) :
    ∀ s : AggState, (List.foldl saleStep s sales).catalogue = s.catalogue := by
  induction sales with
  | nil => intro s; rfl
  | cons r rest ih =>
    intro s
    rw [List.foldl_cons, ih, saleStep_catalogue]

theorem foldl_saleStep_skip (sales : List PyVal) :
    ∀ s : AggState, (∀ r ∈ sales, contributes s.catalogue r = false) →
      List.foldl saleStep s sales = s := by
  induction sales with
  | nil => intro s _; rfl
  | cons r rest ih =>
    intro s h
    have hr := h r (by simp)
    rw [List.foldl_cons, saleStep_skip s r hr]
    exact ih s (fun x hx => h x (by simp [hx]))

theorem grand_total_foldl_invariant (sales : List PyVal) :
    ∀ s : AggState, s.grand_total = sumVals s.sale_totals →
      (List.foldl saleStep s sales).grand_total
        = sumVals (List.foldl saleStep s sales).sale_totals := by
  induction sales with
  | nil => intro s h; exact h
  | cons r rest ih =>
    intro s h
    rw [List.foldl_cons]
    exact ih _ (saleStep_sum s r h)

/-- Claim C1: for every sale record whose SALE_ID, Product and Quantity
fields are all present, whose Quantity is convertible to an integer, whose
SALE_ID is usable as a dictionary key (every identifier of the data model,
text or number, is) and whose Product is a key of the catalogue, the loop
body of compute_sales_total adds cost = catalogue[Product] * Quantity to
per_sale[SALE_ID], reading the entry as 0 when SALE_ID was not yet a key,
and adds the same cost to grand_total. -/
theorem claim_C1_valid_record_accumulates (s : AggState)
    (r sid pname : PyVal) (q : Int) (price : ℚ)
    (hex : extractSale? r = some (sid, pname, q))
    (hpr : dGet? s.catalogue pname = some price)
    (hsid : hashable sid = true) :
    (saleStep s r).grand_total = s.grand_total + price * (q : ℚ) ∧
    dGet? (saleStep s r).sale_totals sid
      = some ((dGet? s.sale_totals sid).getD 0 + price * (q : ℚ)) := by
  rw [saleStep_eq_of_contrib s hex hpr hsid]
  refine ⟨rfl, ?_⟩
  cases hmem : dMem s.sale_totals sid with
  | true =>
    rcases Option.isSome_iff_exists.1 hmem with ⟨w, hw⟩
    simp only [hmem, if_true, hw, Option.getD_some]
    exact dGet?_dSet_self _ _ _ hsid
  | false =>
    have hnone : dGet? s.sale_totals sid = Option.none := by
      unfold dMem at hmem
      exact Option.not_isSome_iff_eq_none.mp (by simp [hmem])
    simp only [hmem, Bool.false_eq_true, if_false, hnone, Option.getD_none,
      dGet?_dSet_self _ _ _ hsid]
    rfl

/-- Witness for claim C1 at a concrete record and catalogue. -/
theorem claim_C1_witness :
    (saleStep
      { catalogue := [(PyVal.str "W", (2 : ℚ))], sale_totals := [],
        grand_total := 0 }
      (PyVal.dict [("SALE_ID", PyVal.int 1), ("Product", PyVal.str "W"),
        ("Quantity", PyVal.int 3)])).grand_total = 0 + 2 * ((3 : Int) : ℚ) ∧
    dGet? (saleStep
      { catalogue := [(PyVal.str "W", (2 : ℚ))], sale_totals := [],
        grand_total := 0 }
      (PyVal.dict [("SALE_ID", PyVal.int 1), ("Product", PyVal.str "W"),
        ("Quantity", PyVal.int 3)])).sale_totals (PyVal.int 1)
      = some ((dGet? [] (PyVal.int 1)).getD 0 + 2 * ((3 : Int) : ℚ)) :=
  claim_C1_valid_record_accumulates
    { catalogue := [(PyVal.str "W", (2 : ℚ))], sale_totals := [],
      grand_total := 0 }
    (PyVal.dict [("SALE_ID", PyVal.int 1), ("Product", PyVal.str "W"),
      ("Quantity", PyVal.int 3)])
    (PyVal.int 1) (PyVal.str "W") 3 2 rfl rfl rfl

/-- Claim C2: for every sales sequence and every catalogue, the grand total
returned by compute_sales_total equals the sum of the subtotals of the
returned per sale mapping, exactly, in the exact rational embedding of the
float arithmetic. -/
theorem claim_C2_grand_total_eq_sum (sales : List PyVal) (catalogue : Dict) :
    (compute_sales_total sales catalogue).2
      = sumVals (compute_sales_total sales catalogue).1 :=
  grand_total_foldl_invariant sales
    { catalogue := catalogue, sale_totals := [], grand_total := 0 } rfl

/-- Claim C3: the aggregation is total: every record, however malformed,
is skipped rather than aborting the run (in the embedding every raising
statement is an Option branch that the except clause turns into a skip,
so compute_sales_total is a total function), and when every record fails
its checks the result is the empty mapping and a zero grand total. -/
theorem claim_C3_all_invalid_yields_empty (sales : List PyVal)
    (catalogue : Dict)
    (h : ∀ r ∈ sales, contributes catalogue r = false) :
    compute_sales_total sales catalogue = ([], 0) := by
  unfold compute_sales_total aggRun
  rw [foldl_saleStep_skip sales _ h]

/-- Witness for claim C3: a run in which every record is invalid (not a
dict, missing fields, unknown product, non numeric quantity) produces the
empty mapping and zero. -/
theorem claim_C3_witness :
    compute_sales_total
      [PyVal.str "oops",
       PyVal.dict [("SALE_ID", PyVal.int 1)],
       PyVal.dict [("SALE_ID", PyVal.int 1), ("Product", PyVal.str "G"),
         ("Quantity", PyVal.int 2)],
       PyVal.dict [("SALE_ID", PyVal.int 1), ("Product", PyVal.str "W"),
         ("Quantity", PyVal.str "abc")]]
      [(PyVal.str "W", (3 : ℚ))] = ([], 0) :=
  claim_C3_all_invalid_yields_empty _ _ (by decide)

/-- Claim C5: a sale record whose product is not a key of the catalogue
contributes nothing: the run on any sales list containing it equals the
run on the same list with the record removed, and the catalogue component
of the aggregation state is returned unchanged by the whole run. -/
theorem claim_C5_unmatched_product_no_effect (catalogue : Dict)
    (pre post : List PyVal) (r sid pname : PyVal) (q : Int)
    (hex : extractSale? r = some (sid, pname, q))
    (hnm : dMem catalogue pname = false) :
    compute_sales_total (pre ++ r :: post) catalogue
      = compute_sales_total (pre ++ post) catalogue ∧
    (aggRun (pre ++ r :: post) catalogue).catalogue = catalogue := by
  have hskip : ∀ s : AggState, s.catalogue = catalogue → saleStep s r = s := by
    intro s hs
    apply saleStep_skip
    unfold contributes
    rw [hex]
    simp only [hs, hnm, Bool.false_and]
  constructor
  · unfold compute_sales_total aggRun
    rw [List.foldl_append, List.foldl_append, List.foldl_cons,
      hskip _ (foldl_saleStep_catalogue pre _)]
  · exact foldl_saleStep_catalogue _ _

/-- Witness for claim C5 at a concrete unmatched record. -/
theorem claim_C5_witness :
    compute_sales_total
      [PyVal.dict [("SALE_ID", PyVal.int 1), ("Product", PyVal.str "W"),
         ("Quantity", PyVal.int 4)],
       PyVal.dict [("SALE_ID", PyVal.int 2), ("Product", PyVal.str "Gadget"),
         ("Quantity", PyVal.int 1)]]
      [(PyVal.str "W", (5 : ℚ) / 2)]
      = compute_sales_total
        [PyVal.dict [("SALE_ID", PyVal.int 1), ("Product", PyVal.str "W"),
           ("Quantity", PyVal.int 4)]]
        [(PyVal.str "W", (5 : ℚ) / 2)] ∧
    (aggRun
      [PyVal.dict [("SALE_ID", PyVal.int 1), ("Product", PyVal.str "W"),
         ("Quantity", PyVal.int 4)],
       PyVal.dict [("SALE_ID", PyVal.int 2), ("Product", PyVal.str "Gadget"),
         ("Quantity", PyVal.int 1)]]
      [(PyVal.str "W", (5 : ℚ) / 2)]).catalogue
      = [(PyVal.str "W", (5 : ℚ) / 2)] :=
  claim_C5_unmatched_product_no_effect [(PyVal.str "W", (5 : ℚ) / 2)]
    [PyVal.dict [("SALE_ID", PyVal.int 1), ("Product", PyVal.str "W"),
       ("Quantity", PyVal.int 4)]]
    []
    (PyVal.dict [("SALE_ID", PyVal.int 2), ("Product", PyVal.str "Gadget"),
       ("Quantity", PyVal.int 1)])
    (PyVal.int 2) (PyVal.str "Gadget") 1 rfl rfl

/-- Claim C8: the aggregation result is a deterministic function of the
sales sequence and the catalogue: two runs on equal inputs return equal
per sale mappings and equal grand totals. In the embedding
compute_sales_total reads no state other than its two arguments, which is
why it is expressible as a pure function of them. -/
theorem claim_C8_deterministic (sales1 sales2 : List PyVal)
    (cat1 cat2 : Dict) (h1 : sales1 = sales2) (h2 : cat1 = cat2) :
    compute_sales_total sales1 cat1 = compute_sales_total sales2 cat2 := by
  rw [h1, h2]

/-- Witness for claim C8: two identical concrete runs agree. -/
theorem claim_C8_witness :
    compute_sales_total
      [PyVal.dict [("SALE_ID", PyVal.int 1), ("Product", PyVal.str "W"),
         ("Quantity", PyVal.int 4)]]
      [(PyVal.str "W", (5 : ℚ) / 2)]
      = compute_sales_total
        [PyVal.dict [("SALE_ID", PyVal.int 1), ("Product", PyVal.str "W"),
           ("Quantity", PyVal.int 4)]]
        [(PyVal.str "W", (5 : ℚ) / 2)] :=
  claim_C8_deterministic _ _ _ _ rfl rfl

/-- Claim C10: no sign check is performed on quantities: a catalogued
product with positive price combined with a negative integer quantity
yields a negative accumulated cost, making the per sale subtotal and the
grand total strictly negative. -/
theorem claim_C10_negative_quantity :
    compute_sales_total
      [PyVal.dict [("SALE_ID", PyVal.int 7), ("Product", PyVal.str "W"),
        ("Quantity", PyVal.int (-3))]]
      [(PyVal.str "W", (2 : ℚ))]
      = ([(PyVal.int 7, (-6 : ℚ))], (-6 : ℚ)) ∧ ((-6 : ℚ) < 0) := by
  refine ⟨rfl, ?_⟩
  norm_num

theorem findq_append {α : Type} (l1 l2 : List α) (p : α → Bool) :
    (l1 ++ l2).find? p = (l1.find? p).or (l2.find? p) := by
  induction l1 with
  | nil => rfl
  | cons a l ih =>
    cases hpa : p a with
    | true => simp [List.find?, hpa]
    | false => simp [List.find?, hpa, ih]

theorem validEntries_cons_none {p : PyVal} (hv : validEntry? p = Option.none)
    (ps : List PyVal) : validEntries (p :: ps) = validEntries ps := by
  unfold validEntries
  simp [List.filterMap_cons, hv]

theorem validEntries_cons_some {p : PyVal} {e : PyVal × ℚ}
    (hv : validEntry? p = some e) (ps : List PyVal) :
    validEntries (p :: ps) = e :: validEntries ps := by
  unfold validEntries
  simp [List.filterMap_cons, hv]

theorem buildStep_none {cat : Dict} {p : PyVal}
    (hv : validEntry? p = Option.none) : buildStep cat p = cat := by
  unfold buildStep
  rw [hv]

theorem buildStep_some {cat : Dict} {p : PyVal} {e : PyVal × ℚ}
    (hv : validEntry? p = some e) : buildStep cat p = dSet cat e.1 e.2 := by
  unfold buildStep
  rw [hv]

theorem dGet?_build_aux (products : List PyVal) :
    ∀ (cat : Dict) (t : PyVal),
      dGet? (List.foldl buildStep cat products) t
        = ((validEntries products).reverse.find?
            (fun e => keyMatch e.1 t)).elim (dGet? cat t) (fun e => some e.2) := by
  induction products with
  | nil => intro cat t; rfl
  | cons p ps ih =>
    intro cat t
    rw [List.foldl_cons, ih (buildStep cat p) t]
    cases hv : validEntry? p with
    | none => rw [validEntries_cons_none hv, buildStep_none hv]
    | some e =>
      rw [validEntries_cons_some hv, buildStep_some hv, List.reverse_cons,
        findq_append]
      cases hf : (validEntries ps).reverse.find? (fun e => keyMatch e.1 t) with
      | some e2 => rfl
      | none =>
        show dGet? (dSet cat e.1 e.2) t = _
        rw [dGet?_dSet]
        cases hm : keyMatch e.1 t with
        | true => simp [List.find?, hm]
        | false => simp [List.find?, hm]

theorem build_length_aux (products : List PyVal) :
    ∀ cat : Dict,
      (∀ e ∈ validEntries products, dMem cat e.1 = false) →
      List.Pairwise (fun a b => keyMatch a.1 b.1 = false)
        (validEntries products) →
      (List.foldl buildStep cat products).length
        = cat.length + (validEntries products).length := by
  induction products with
  | nil => intro cat _ _; rfl
  | cons p ps ih =>
    intro cat hfresh hpw
    cases hv : validEntry? p with
    | none =>
      rw [validEntries_cons_none hv ps] at hfresh hpw
      rw [List.foldl_cons, buildStep_none hv, validEntries_cons_none hv ps]
      exact ih cat hfresh hpw
    | some e =>
      rw [validEntries_cons_some hv ps] at hfresh hpw
      rw [List.foldl_cons, buildStep_some hv, validEntries_cons_some hv ps]
      have hnew : dGet? cat e.1 = Option.none := by
        have hm := hfresh e (by simp)
        unfold dMem at hm
        exact Option.not_isSome_iff_eq_none.mp (by simp [hm])
      have hfresh2 : ∀ x ∈ validEntries ps, dMem (dSet cat e.1 e.2) x.1 = false := by
        intro x hx
        rw [dMem_dSet]
        rw [(List.pairwise_cons.mp hpw).1 x hx, hfresh x (by simp [hx])]
        rfl
      rw [ih (dSet cat e.1 e.2) hfresh2 (List.pairwise_cons.mp hpw).2,
        dSet_length_new cat e.1 e.2 hnew, List.length_cons]
      omega

/-- Claim C4: the catalogue built from a product list maps a key to the
price of the last valid entry whose title matches it (later duplicate
titles overwrite earlier ones), and when the valid titles are pairwise
distinct the size of the catalogue equals the number of valid entries,
invalid entries being excluded from the count. -/
theorem claim_C4_last_write_wins_and_size (products : List PyVal)
    (t : PyVal) :
    dGet? (build_price_catalogue products) t
      = ((validEntries products).reverse.find?
          (fun e => keyMatch e.1 t)).map Prod.snd
    ∧ (List.Pairwise (fun a b => keyMatch a.1 b.1 = false)
          (validEntries products)
        → (build_price_catalogue products).length
            = (validEntries products).length) := by
  constructor
  · rw [show build_price_catalogue products = List.foldl buildStep [] products
      from rfl, dGet?_build_aux products [] t]
    cases (validEntries products).reverse.find? (fun e => keyMatch e.1 t) with
    | some e => rfl
    | none => rfl
  · intro hpw
    rw [show build_price_catalogue products = List.foldl buildStep [] products
      from rfl, build_length_aux products [] (fun e _ => rfl) hpw]
    simp

/-- Witness for claim C4: a product list with one duplicated title keeps
the later price, and a product list with distinct valid titles and one
invalid entry yields a catalogue of the same size as its valid entries. -/
theorem claim_C4_witness :
    dGet? (build_price_catalogue
      [PyVal.dict [("title", PyVal.str "a"), ("price", PyVal.int 4)],
       PyVal.dict [("title", PyVal.str "a"), ("price", PyVal.int 7)]])
      (PyVal.str "a")
      = ((validEntries
          [PyVal.dict [("title", PyVal.str "a"), ("price", PyVal.int 4)],
           PyVal.dict [("title", PyVal.str "a"), ("price", PyVal.int 7)]]).reverse.find?
            (fun e => keyMatch e.1 (PyVal.str "a"))).map Prod.snd ∧
    ((validEntries
        [PyVal.dict [("title", PyVal.str "a"), ("price", PyVal.int 4)],
         PyVal.dict [("title", PyVal.str "a"), ("price", PyVal.int 7)]]).reverse.find?
          (fun e => keyMatch e.1 (PyVal.str "a"))).map Prod.snd = some 7 ∧
    (build_price_catalogue
      [PyVal.dict [("title", PyVal.str "a"), ("price", PyVal.int 4)],
       PyVal.dict [("title", PyVal.str "b"), ("price", PyVal.int 6)],
       PyVal.dict [("title", PyVal.str "c")]]).length
      = (validEntries
        [PyVal.dict [("title", PyVal.str "a"), ("price", PyVal.int 4)],
         PyVal.dict [("title", PyVal.str "b"), ("price", PyVal.int 6)],
         PyVal.dict [("title", PyVal.str "c")]]).length ∧
    (validEntries
      [PyVal.dict [("title", PyVal.str "a"), ("price", PyVal.int 4)],
       PyVal.dict [("title", PyVal.str "b"), ("price", PyVal.int 6)],
       PyVal.dict [("title", PyVal.str "c")]]).length = 2 :=
  ⟨(claim_C4_last_write_wins_and_size
      [PyVal.dict [("title", PyVal.str "a"), ("price", PyVal.int 4)],
       PyVal.dict [("title", PyVal.str "a"), ("price", PyVal.int 7)]]
      (PyVal.str "a")).1,
   rfl,
   (claim_C4_last_write_wins_and_size
      [PyVal.dict [("title", PyVal.str "a"), ("price", PyVal.int 4)],
       PyVal.dict [("title", PyVal.str "b"), ("price", PyVal.int 6)],
       PyVal.dict [("title", PyVal.str "c")]]
      (PyVal.str "a")).2 (by decide),
   rfl⟩

theorem vals_dSet_subset {d : Dict} {k : PyVal} {w v : ℚ}
    (h : v ∈ (dSet d k w).map Prod.snd) : v ∈ d.map Prod.snd ∨ v = w := by
  induction d with
  | nil =>
    right
    simpa [dSet] using h
  | cons e rest ih =>
    cases hek : keyMatch e.1 k with
    | true =>
      rw [show dSet (e :: rest) k w = (e.1, w) :: rest by simp [dSet, hek]] at h
      simp only [List.map_cons, List.mem_cons] at h ⊢
      rcases h with h | h
      · right; exact h
      · left; right; exact h
    | false =>
      rw [show dSet (e :: rest) k w = e :: dSet rest k w by simp [dSet, hek]] at h
      simp only [List.map_cons, List.mem_cons] at h ⊢
      rcases h with h | h
      · left; left; exact h
      · rcases ih h with h2 | h2
        · left; right; exact h2
        · right; exact h2

theorem build_vals_aux (products : List PyVal) :
    ∀ (cat : Dict) (v : ℚ),
      v ∈ (List.foldl buildStep cat products).map Prod.snd →
      v ∈ cat.map Prod.snd ∨ ∃ e ∈ validEntries products, e.2 = v := by
  induction products with
  | nil => intro cat v h; left; exact h
  | cons p ps ih =>
    intro cat v h
    rw [List.foldl_cons] at h
    rcases ih (buildStep cat p) v h with h1 | h1
    · cases hv : validEntry? p with
      | none =>
        rw [buildStep_none hv] at h1
        left
        exact h1
      | some e =>
        rw [buildStep_some hv] at h1
        rcases vals_dSet_subset h1 with h2 | h2
        · left; exact h2
        · right
          exact ⟨e, by rw [validEntries_cons_some hv ps]; simp, h2.symm⟩
    · right
      rcases h1 with ⟨e, he, hev⟩
      refine ⟨e, ?_, hev⟩
      cases hv : validEntry? p with
      | none => rw [validEntries_cons_none hv ps]; exact he
      | some e2 => rw [validEntries_cons_some hv ps]; simp [he]

/-- Claim C6 amended: every price stored in the catalogue is the coerced
price of some valid product entry; in particular, when every valid entry
has a non negative coerced price, every catalogue value is non negative.
The source performs no sign check, so the unconditional claim fails. -/
theorem claim_C6_amended_nonneg (products : List PyVal)
    (h : ∀ e ∈ validEntries products, 0 ≤ e.2) :
    ∀ v ∈ (build_price_catalogue products).map Prod.snd, 0 ≤ v := by
  intro v hv
  rcases build_vals_aux products [] v hv with h1 | h1
  · simp at h1
  · rcases h1 with ⟨e, he, hev⟩
    exact hev ▸ h e he

/-- Counterexample to claim C6 as stated: a product entry with price -5 is
accepted by build_price_catalogue and stored as a negative catalogue
value. -/
theorem claim_C6_counterexample :
    dGet? (build_price_catalogue
      [PyVal.dict [("title", PyVal.str "X"), ("price", PyVal.int (-5))]])
      (PyVal.str "X") = some (-5) ∧ ((-5 : ℚ) < 0) := by
  refine ⟨rfl, ?_⟩
  norm_num

/-- Witness for the amended claim C6 at a concrete product list with a
non negative price. -/
theorem claim_C6_witness : (0 : ℚ) ≤ 3 :=
  claim_C6_amended_nonneg
    [PyVal.dict [("title", PyVal.str "X"), ("price", PyVal.int 3)]]
    (by decide) 3 (by decide)

/-- Claim C9: a sale record whose Quantity is the non integral float 4.7
is not rejected: the int conversion truncates it toward zero to 4, which
is used to compute the cost; the same value supplied as the text 4.7 fails
the int conversion and the record is skipped as invalid. -/
theorem claim_C9_float_quantity_truncates (s : AggState)
    (sid pname : PyVal) (price : ℚ)
    (hpr : dGet? s.catalogue pname = some price)
    (hsid : hashable sid = true) :
    pyInt? (PyVal.float (47 / 10)) = some 4 ∧
    pyInt? (PyVal.str "4.7") = Option.none ∧
    (saleStep s (PyVal.dict [("SALE_ID", sid), ("Product", pname),
      ("Quantity", PyVal.float (47 / 10))])).grand_total
      = s.grand_total + price * ((4 : Int) : ℚ) ∧
    saleStep s (PyVal.dict [("SALE_ID", sid), ("Product", pname),
      ("Quantity", PyVal.str "4.7")]) = s := by
  have hex : extractSale? (PyVal.dict [("SALE_ID", sid), ("Product", pname),
      ("Quantity", PyVal.float (47 / 10))]) = some (sid, pname, 4) := rfl
  have hex2 : extractSale? (PyVal.dict [("SALE_ID", sid), ("Product", pname),
      ("Quantity", PyVal.str "4.7")]) = Option.none := rfl
  refine ⟨rfl, rfl, ?_, ?_⟩
  · rw [saleStep_eq_of_contrib s hex hpr hsid]
  · apply saleStep_skip
    unfold contributes
    rw [hex2]

/-- Witness for claim C9 at a concrete state and catalogue. -/
theorem claim_C9_witness :
    pyInt? (PyVal.float (47 / 10)) = some 4 ∧
    pyInt? (PyVal.str "4.7") = Option.none ∧
    (saleStep
      { catalogue := [(PyVal.str "W", (2 : ℚ))], sale_totals := [],
        grand_total := 0 }
      (PyVal.dict [("SALE_ID", PyVal.int 1), ("Product", PyVal.str "W"),
        ("Quantity", PyVal.float (47 / 10))])).grand_total
      = (0 : ℚ) + 2 * ((4 : Int) : ℚ) ∧
    saleStep
      { catalogue := [(PyVal.str "W", (2 : ℚ))], sale_totals := [],
        grand_total := 0 }
      (PyVal.dict [("SALE_ID", PyVal.int 1), ("Product", PyVal.str "W"),
        ("Quantity", PyVal.str "4.7")])
      = { catalogue := [(PyVal.str "W", (2 : ℚ))], sale_totals := [],
          grand_total := 0 } :=
  claim_C9_float_quantity_truncates
    { catalogue := [(PyVal.str "W", (2 : ℚ))], sale_totals := [],
      grand_total := 0 }
    (PyVal.int 1) (PyVal.str "W") 2 rfl rfl

/-- Whether a value is a number for ordering purposes (bool, int or
float); Python compares all of these by numeric value. -/
def isNumKey (v : PyVal) : Bool := (toRat? v).isSome

/-- Whether a value is a string. -/
def isStrKey : PyVal → Bool
  | .str _ => true
  | _ => false

/-- The numeric value of a number, defaulting to 0 on other values. -/
def ratValD (v : PyVal) : ℚ := (toRat? v).getD 0

/-- The text of a string value, defaulting to the empty string. -/
def strValD : PyVal → String
  | .str s => s
  | _ => ""

/-- The Python comparison used by sorted on a list of numbers. -/
def numLe (a b : PyVal) : Prop := ratValD a ≤ ratValD b

/-- Lexicographic comparison of character lists by code point, the order
Python uses between strings. -/
def charListLe : List Char → List Char → Bool
  | [], _ => true
  | _ :: _, [] => false
  | a :: as, b :: bs =>
    if a.toNat < b.toNat then true
    else if b.toNat < a.toNat then false
    else charListLe as bs

theorem charListLe_total :
    ∀ xs ys, charListLe xs ys = true ∨ charListLe ys xs = true := by
  intro xs
  induction xs with
  | nil => intro ys; left; rfl
  | cons a as ih =>
    intro ys
    cases ys with
    | nil => right; rfl
    | cons b bs =>
      by_cases h1 : a.toNat < b.toNat
      · left
        simp [charListLe, h1]
      · by_cases h2 : b.toNat < a.toNat
        · right
          simp [charListLe, h2]
        · rcases ih bs with h | h
          · left
            simp [charListLe, h1, h2, h]
          · right
            simp [charListLe, h1, h2, h]

theorem charListLe_trans :
    ∀ xs ys zs, charListLe xs ys = true → charListLe ys zs = true →
      charListLe xs zs = true := by
  intro xs
  induction xs with
  | nil => intro ys zs _ _; rfl
  | cons a as ih =>
    intro ys zs h1 h2
    cases ys with
    | nil => simp [charListLe] at h1
    | cons b bs =>
      cases zs with
      | nil => simp [charListLe] at h2
      | cons c cs =>
        simp only [charListLe] at h1 h2 ⊢
        by_cases hab : a.toNat < b.toNat
        · by_cases hbc : b.toNat < c.toNat
          · simp [show a.toNat < c.toNat from lt_trans hab hbc]
          · by_cases hcb : c.toNat < b.toNat
            · simp [hbc, hcb] at h2
            · simp [show a.toNat < c.toNat by omega]
        · by_cases hba : b.toNat < a.toNat
          · simp [hab, hba] at h1
          · simp only [hab, hba, if_false] at h1
            by_cases hbc : b.toNat < c.toNat
            · simp [show a.toNat < c.toNat by omega]
            · by_cases hcb : c.toNat < b.toNat
              · simp [hbc, hcb] at h2
              · simp only [hbc, hcb, if_false] at h2
                have hac1 : ¬ a.toNat < c.toNat := by omega
                have hac2 : ¬ c.toNat < a.toNat := by omega
                simp only [hac1, hac2, if_false]
                exact ih bs cs h1 h2

/-- The Python comparison used by sorted on a list of strings:
lexicographic on code points. -/
def strLe (a b : PyVal) : Prop :=
  charListLe (strValD a).toList (strValD b).toList = true

instance : DecidableRel numLe :=
  fun a b => inferInstanceAs (Decidable (ratValD a ≤ ratValD b))

instance : DecidableRel strLe :=
  fun a b =>
    inferInstanceAs (Decidable (charListLe (strValD a).toList (strValD b).toList = true))

instance : IsTotal PyVal numLe := ⟨fun a b => le_total (ratValD a) (ratValD b)⟩

instance : IsTrans PyVal numLe := ⟨fun _ _ _ h1 h2 => le_trans h1 h2⟩

instance : IsTotal PyVal strLe :=
  ⟨fun a b => charListLe_total (strValD a).toList (strValD b).toList⟩

instance : IsTrans PyVal strLe :=
  ⟨fun a b c h1 h2 =>
    charListLe_trans (strValD a).toList (strValD b).toList (strValD c).toList h1 h2⟩

/-- The sorted builtin of Python on a list of dictionary keys: on a list
of at most one element no comparison is made; a list of numbers or a list
of strings is totally ordered and is sorted; any other combination
(numbers mixed with strings, or any None beside another element) makes a
comparison raise TypeError, which write_results does not catch, so no
line is produced. -/
def sortKeys? (ks : List PyVal) : Option (List PyVal) :=
  if ks.length ≤ 1 then some ks
  else if ks.all isNumKey then some (List.insertionSort numLe ks)
  else if ks.all isStrKey then some (List.insertionSort strLe ks)
  else Option.none

/-- A natural number printed in decimal and left padded with zeros to the
given width. -/
def natPad (n width : Nat) : String :=
  let s := toString n
  String.mk (List.replicate (width - s.length) '0') ++ s

/-- Floor of a rational as an integer. -/
def ratFloorInt (q : ℚ) : Int := Int.fdiv q.num (q.den : Int)

/-- Rounding of a rational to the nearest integer, ties to even: the
rounding used by the Python fixed point format of floats, applied here to
the exactly embedded value. -/
def rndHE (q : ℚ) : Int :=
  let n := ratFloorInt q
  let f : ℚ := q - (n : ℚ)
  if f < 1 / 2 then n
  else if 1 / 2 < f then n + 1
  else if n % 2 = 0 then n else n + 1

/-- The Python fixed point format of a float with the given number of
decimals, on the exactly embedded value: round half to even, keep the
sign of a negative value even when it rounds to zero. -/
def fmtDec (prec : Nat) (q : ℚ) : String :=
  let a : ℚ := if q < 0 then -q else q
  let c := (rndHE (a * 10 ^ prec)).toNat
  (if q < 0 then "-" else "")
    ++ toString (c / 10 ^ prec) ++ "." ++ natPad (c % 10 ^ prec) prec

/-- Number of decimal digits needed to write a rational exactly, up to
17; values needing more (never produced by decimal inputs) fall back to
17 truncated digits. -/
def decExp (q : ℚ) : Nat :=
  ((List.range 18).find? (fun k => (q * 10 ^ k).den == 1)).getD 17

/-- The str builtin of Python on a float, for decimally representable
values: sign, integer part, point, and the exact decimal digits, at least
one (Python prints 1.0 for the integral float one). -/
def floatRepr (q : ℚ) : String :=
  let a : ℚ := if q < 0 then -q else q
  let k := max (decExp a) 1
  let m := (a * 10 ^ k).num.toNat
  (if q < 0 then "-" else "")
    ++ toString (m / 10 ^ k) ++ "." ++ natPad (m % 10 ^ k) k

/-- The str builtin of Python on a decoded value, as interpolated by the
report lines. Containers are unhashable, can never be dictionary keys and
so are never printed as sale ids; their rendering is arbitrary. -/
def pyStr : PyVal → String
  | .none => "None"
  | .bool b => if b then "True" else "False"
  | .int n => toString n
  | .float q => floatRepr q
  | .str s => s
  | .list _ => "<container>"
  | .dict _ => "<container>"

/-- One per sale line of the report. -/
def saleLine (k : PyVal) (v : ℚ) : String :=
  "Sale ID " ++ pyStr k ++ ": $" ++ fmtDec 2 v

/-- The separator line of the report. -/
def sep30 : String := String.mk (List.replicate 30 '-')

/-- The lines written by write_results, both to SalesResults.txt and to
the console: a header, one line per sale id in the order produced by
sorted, a separator, the grand total and the elapsed time. Option.none
when sorted raises TypeError on incomparable keys, in which case the run
aborts and no per sale line is produced. -/
def write_results? (sale_totals : Dict) (grand_total elapsed : ℚ) :
    Option (List String) :=
  (sortKeys? (sale_totals.map Prod.fst)).map (fun ks =>
    ["SALES SUMMARY", sep30]
      ++ ks.map (fun k => saleLine k ((dGet? sale_totals k).getD 0))
      ++ [sep30, "TOTAL SALES: $" ++ fmtDec 2 grand_total,
          "Execution Time: " ++ fmtDec 6 elapsed ++ " seconds"])

/-- The ascending order of sale identifiers spoken of by the report
specification: numeric order between numbers, lexicographic order between
strings. -/
def pyKeyLe (a b : PyVal) : Prop :=
  (isNumKey a = true ∧ isNumKey b = true ∧ numLe a b) ∨
  (isStrKey a = true ∧ isStrKey b = true ∧ strLe a b)

theorem pairwise_of_short {α : Type} (R : α → α → Prop) :
    ∀ l : List α, l.length ≤ 1 → List.Pairwise R l
  | [], _ => List.Pairwise.nil
  | [_], _ => by simp
  | _ :: _ :: _, h => absurd h (by simp)

/-- Claim C7 amended: for a per sale mapping whose keys are homogeneous
(all numbers or all strings, or at most one key), the report contains
exactly one line per sale identifier (the printed keys are a permutation
of the mapping keys), in ascending order of identifier, each line
formatted as Sale ID id, colon, dollar sign, total to two decimals. For
mixed number and string keys the sorted builtin raises TypeError and no
report is produced, so the unrestricted claim fails. -/
theorem claim_C7_amended_sorted_report (st : Dict) (g e : ℚ)
    (h : (st.map Prod.fst).length ≤ 1 ∨
         (st.map Prod.fst).all isNumKey = true ∨
         (st.map Prod.fst).all isStrKey = true) :
    ∃ ks, sortKeys? (st.map Prod.fst) = some ks ∧
      List.Perm ks (st.map Prod.fst) ∧
      List.Pairwise pyKeyLe ks ∧
      write_results? st g e = some
        (["SALES SUMMARY", sep30]
          ++ ks.map (fun k => saleLine k ((dGet? st k).getD 0))
          ++ [sep30, "TOTAL SALES: $" ++ fmtDec 2 g,
              "Execution Time: " ++ fmtDec 6 e ++ " seconds"]) := by
  by_cases hlen : (st.map Prod.fst).length ≤ 1
  · have hsort : sortKeys? (st.map Prod.fst) = some (st.map Prod.fst) := by
      unfold sortKeys?
      rw [if_pos hlen]
    exact ⟨st.map Prod.fst, hsort, List.Perm.refl _,
      pairwise_of_short pyKeyLe _ hlen,
      by unfold write_results?; rw [hsort]; rfl⟩
  · rcases h with h | h | h
    · exact absurd h hlen
    · have hsort : sortKeys? (st.map Prod.fst)
          = some (List.insertionSort numLe (st.map Prod.fst)) := by
        unfold sortKeys?
        rw [if_neg hlen, if_pos h]
      have hperm := List.perm_insertionSort numLe (st.map Prod.fst)
      have hmem : ∀ a ∈ List.insertionSort numLe (st.map Prod.fst),
          isNumKey a = true :=
        fun a ha => List.all_eq_true.mp h a (hperm.subset ha)
      refine ⟨List.insertionSort numLe (st.map Prod.fst), hsort, hperm, ?_,
        by unfold write_results?; rw [hsort]; rfl⟩
      exact List.Pairwise.imp_of_mem
        (fun ha hb hR => Or.inl ⟨hmem _ ha, hmem _ hb, hR⟩)
        (List.sorted_insertionSort numLe (st.map Prod.fst))
    · have hsort : sortKeys? (st.map Prod.fst)
          = some (List.insertionSort strLe (st.map Prod.fst)) := by
        unfold sortKeys?
        rw [if_neg hlen]
        have hns : (st.map Prod.fst).all isNumKey = false := by
          cases hn : (st.map Prod.fst).all isNumKey with
          | false => rfl
          | true =>
            exfalso
            cases hl : st.map Prod.fst with
            | nil => rw [hl] at hlen; simp at hlen
            | cons k rest =>
              have h1 := List.all_eq_true.mp h k (by rw [hl]; simp)
              have h2 := List.all_eq_true.mp hn k (by rw [hl]; simp)
              cases k <;> simp [isNumKey, isStrKey, toRat?] at h1 h2
        rw [hns]
        simp only [Bool.false_eq_true, if_false]
        rw [if_pos h]
      have hperm := List.perm_insertionSort strLe (st.map Prod.fst)
      have hmem : ∀ a ∈ List.insertionSort strLe (st.map Prod.fst),
          isStrKey a = true :=
        fun a ha => List.all_eq_true.mp h a (hperm.subset ha)
      refine ⟨List.insertionSort strLe (st.map Prod.fst), hsort, hperm, ?_,
        by unfold write_results?; rw [hsort]; rfl⟩
      exact List.Pairwise.imp_of_mem
        (fun ha hb hR => Or.inr ⟨hmem _ ha, hmem _ hb, hR⟩)
        (List.sorted_insertionSort strLe (st.map Prod.fst))

/-- Counterexample to claim C7 as stated: a per sale mapping with one
number key and one string key, both legal sale identifiers, makes sorted
raise TypeError, so write_results produces no per sale lines at all. -/
theorem claim_C7_counterexample :
    write_results? [(PyVal.int 1, (5 : ℚ)), (PyVal.str "a", (3 : ℚ))] 8 0
      = Option.none := rfl

/-- Witness for the amended claim C7: a concrete two entry mapping with
numeric keys is reported in ascending key order. -/
theorem claim_C7_witness :
    ∃ ks, sortKeys? ([(PyVal.int 2, (5 : ℚ)),
        (PyVal.int 1, (3 : ℚ))].map Prod.fst) = some ks ∧
      List.Perm ks ([(PyVal.int 2, (5 : ℚ)),
        (PyVal.int 1, (3 : ℚ))].map Prod.fst) ∧
      List.Pairwise pyKeyLe ks ∧
      write_results? [(PyVal.int 2, (5 : ℚ)), (PyVal.int 1, (3 : ℚ))] 8 1
        = some
        (["SALES SUMMARY", sep30]
          ++ ks.map (fun k => saleLine k
              ((dGet? [(PyVal.int 2, (5 : ℚ)), (PyVal.int 1, (3 : ℚ))] k).getD 0))
          ++ [sep30, "TOTAL SALES: $" ++ fmtDec 2 8,
              "Execution Time: " ++ fmtDec 6 1 ++ " seconds"]) :=
  claim_C7_amended_sorted_report
    [(PyVal.int 2, (5 : ℚ)), (PyVal.int 1, (3 : ℚ))] 8 1
    (Or.inr (Or.inl (by decide)))

example :
    build_price_catalogue
      [PyVal.dict [("title", PyVal.str "Widget"), ("price", PyVal.str "2.50")]] =
      [(PyVal.str "Widget", (5 : ℚ) / 2)] := rfl

example :
    compute_sales_total
      [PyVal.dict
        [("SALE_ID", PyVal.int 1), ("Product", PyVal.str "Widget"),
         ("Quantity", PyVal.int 4)],
       PyVal.dict
        [("SALE_ID", PyVal.int 1), ("Product", PyVal.str "Widget"),
         ("Quantity", PyVal.int 2)],
       PyVal.dict
        [("SALE_ID", PyVal.int 2), ("Product", PyVal.str "Gadget"),
         ("Quantity", PyVal.int 1)]]
      [(PyVal.str "Widget", (5 : ℚ) / 2)] =
      ([(PyVal.int 1, (15 : ℚ))], (15 : ℚ)) := rfl

end ComputeSales
